import Mathlib

/-!
# StorageManager: an in-memory inventory registry

A shallow embedding of `src/main.cpp`: the `StoredItem` record, the two exception
classes, the `StorageManager` with its two indexes (`itemById`, an
`std::unordered_map`, and `itemByDescription`, an `std::map`), and its four member
functions `addItem`, `findById`, `removeItem` and `listItemsByDescription`.

Modelling decisions.

* `std::string` is `String`; `operator<` on `std::string` (the comparator of `std::map`) is the
  lexicographic comparison `strLess` of the character sequences. `std::string` compares bytes;
  on UTF-8 text the byte order and the code point order used here are the same order.
* `std::shared_ptr<StoredItem>` is the `StoredItem` value it points to: the class has no
  setter, so a stored item never changes and the program never compares pointers.
* Both containers are finite maps from `String` to `StoredItem`, represented by their
  entries in strictly ascending key order (`Map`). For `std::map` this is its iteration
  order. The `std::unordered_map` is never iterated by the program, so only its
  key-to-value content is observable and the same canonical representation is used.
* A member function call is a function from the manager to an `Outcome`: the value
  returned or the exception thrown, the manager after the call, and the lines written
  to `std::cout` by the call.
* An exception carries the `std::string` it was constructed with; its `what()` is a C string
  and reads that message up to its first NUL character (`StorageError.what`).
-/

namespace Inventory

/-! ## Data model -/

/-- The class `StoredItem`: three strings fixed at construction. -/
structure StoredItem where
  id : String
  description : String
  location : String
deriving DecidableEq, Repr

/-- The two exception classes, each carrying the message string `msg` it was constructed
with. -/
inductive StorageError where
  | DuplicateItemException (msg : String)
  | ItemNotFoundException (msg : String)
deriving DecidableEq, Repr

/-- Lexicographic `<` on character sequences, by code point. -/
def lexLess : List Char → List Char → Bool
  | _, [] => false
  | [], _ :: _ => true
  | a :: as, b :: bs =>
    if a.toNat < b.toNat then true
    else if b.toNat < a.toNat then false
    else lexLess as bs

/-- The `operator<` of `std::string`, the comparator of `std::map<std::string, _>`. -/
def strLess (a b : String) : Bool := lexLess a.toList b.toList

/-- The entries of a container, as a list of key/value pairs. -/
abbrev Entries := List (String × StoredItem)

/-- Keys strictly ascending: every entry's key is `strLess` every later entry's key. -/
def Ascending (l : Entries) : Prop := l.Pairwise (fun p q => strLess p.1 q.1 = true)

namespace Entries

/-- Lookup of a key (`find`): the value of the first entry with that key. -/
def find : Entries → String → Option StoredItem
  | [], _ => none
  | (k', v) :: rest, k => if k' = k then some v else find rest k

/-- The effect of `m[k] = v`: insert at the key's place in the order, or overwrite the value of
the entry already there. -/
def assign : Entries → String → StoredItem → Entries
  | [], k, v => [(k, v)]
  | (k', v') :: rest, k, v =>
    if strLess k k' then (k, v) :: (k', v') :: rest
    else if strLess k' k then (k', v') :: assign rest k v
    else (k', v) :: rest

/-- The effect of `erase(k)`: drop the entry with key `k`, when there is one. -/
def erase (l : Entries) (k : String) : Entries := l.filter (fun p => !decide (p.1 = k))

end Entries

/-! ### The comparator is a strict total order, and the operations keep the key order -/

theorem char_eq_of_toNat_eq {a b : Char} (h : a.toNat = b.toNat) : a = b := by
  apply Char.ext
  apply UInt32.ext
  exact h

theorem lexLess_irrefl (a : List Char) : lexLess a a = false := by
  induction a with
  | nil => rfl
  | cons c cs ih => simp [lexLess, ih]

theorem lexLess_trans :
    ∀ (a b c : List Char), lexLess a b = true → lexLess b c = true → lexLess a c = true
  | _, [], _ => by simp [lexLess]
  | _, _ :: _, [] => by simp [lexLess]
  | [], _ :: _, _ :: _ => by simp [lexLess]
  | x :: xs, y :: ys, z :: zs => by
    intro h1 h2
    simp only [lexLess] at h1 h2 ⊢
    split_ifs at h1 h2 ⊢ <;> first | rfl | omega | exact lexLess_trans xs ys zs h1 h2

theorem lexLess_connex :
    ∀ (a b : List Char), lexLess a b = false → lexLess b a = false → a = b
  | [], [] => by simp
  | [], _ :: _ => by simp [lexLess]
  | _ :: _, [] => by simp [lexLess]
  | x :: xs, y :: ys => by
    intro h1 h2
    simp only [lexLess] at h1 h2
    split_ifs at h1 h2 with h3 h4
    have : x = y := char_eq_of_toNat_eq (by omega)
    rw [this, lexLess_connex xs ys h1 h2]

theorem strLess_irrefl (a : String) : strLess a a = false := lexLess_irrefl _

theorem strLess_trans {a b c : String} (h1 : strLess a b = true) (h2 : strLess b c = true) :
    strLess a c = true := lexLess_trans _ _ _ h1 h2

theorem strLess_connex {a b : String} (h1 : strLess a b = false) (h2 : strLess b a = false) :
    a = b := String.toList_inj.mp (lexLess_connex _ _ h1 h2)

theorem strLess_ne {a b : String} (h : strLess a b = true) : a ≠ b := by
  rintro rfl
  rw [strLess_irrefl] at h
  exact Bool.false_ne_true h

theorem Entries.mem_assign_imp {l : Entries} {k : String} {v : StoredItem} {p : String × StoredItem}
    (h : p ∈ Entries.assign l k v) : p = (k, v) ∨ p ∈ l := by
  induction l with
  | nil => simpa [Entries.assign] using h
  | cons q rest ih =>
    obtain ⟨k', v'⟩ := q
    simp only [Entries.assign] at h
    split_ifs at h with h1 h2
    · simpa using h
    · rcases List.mem_cons.mp h with h | h
      · exact Or.inr (by simp [h])
      · rcases ih h with h | h
        · exact Or.inl h
        · exact Or.inr (List.mem_cons_of_mem _ h)
    · have hk : k = k' := strLess_connex (by simpa using h1) (by simpa using h2)
      subst hk
      rcases List.mem_cons.mp h with h | h
      · exact Or.inl h
      · exact Or.inr (List.mem_cons_of_mem _ h)

theorem Entries.assign_ascending {l : Entries} (h : Ascending l) (k : String) (v : StoredItem) :
    Ascending (Entries.assign l k v) := by
  induction l with
  | nil => simp [Entries.assign, Ascending]
  | cons q rest ih =>
    obtain ⟨k', v'⟩ := q
    have hq := List.pairwise_cons.mp h
    simp only [Entries.assign]
    split_ifs with h1 h2
    · refine List.pairwise_cons.mpr ⟨?_, h⟩
      intro p hp
      rcases List.mem_cons.mp hp with hp | hp
      · simpa [hp] using h1
      · exact strLess_trans h1 (hq.1 p hp)
    · refine List.pairwise_cons.mpr ⟨?_, ih hq.2⟩
      intro p hp
      rcases Entries.mem_assign_imp hp with hp | hp
      · simpa [hp] using h2
      · exact hq.1 p hp
    · exact List.pairwise_cons.mpr ⟨hq.1, hq.2⟩

theorem Entries.erase_ascending {l : Entries} (h : Ascending l) (k : String) :
    Ascending (Entries.erase l k) := List.Pairwise.filter _ h

/-! ## The containers and the manager -/

/-- A container (`std::map` or `std::unordered_map`) from `std::string` to `StoredItem`: its
entries, one per key, in ascending key order. -/
structure Map where
  entries : Entries
  ascending : Ascending entries

theorem Map.eq_of_entries_eq {a b : Map} (h : a.entries = b.entries) : a = b := by
  cases a; cases b; cases h; rfl

instance : DecidableEq Map := fun a b =>
  decidable_of_iff (a.entries = b.entries) ⟨Map.eq_of_entries_eq, fun h => by rw [h]⟩

namespace Map

/-- A default-constructed container. -/
def empty : Map := ⟨[], List.Pairwise.nil⟩

/-- The keys, in order. -/
def keys (m : Map) : List String := m.entries.map Prod.fst

/-- The stored items, in key order. -/
def values (m : Map) : List StoredItem := m.entries.map Prod.snd

/-- Lookup, `m.find(k)`: `none` stands for `end()`. -/
def find (m : Map) (k : String) : Option StoredItem := Entries.find m.entries k

/-- Assignment through `operator[]`, `m[k] = v`. -/
def assign (m : Map) (k : String) (v : StoredItem) : Map :=
  ⟨Entries.assign m.entries k v, Entries.assign_ascending m.ascending k v⟩

/-- Removal by key, `m.erase(k)`. -/
def erase (m : Map) (k : String) : Map :=
  ⟨Entries.erase m.entries k, Entries.erase_ascending m.ascending k⟩

end Map

/-- The private state of a `StorageManager` object: its two indexes. -/
structure StorageManager where
  itemById : Map
  itemByDescription : Map
deriving DecidableEq

/-- A default-constructed `StorageManager`: both indexes empty. -/
def StorageManager.empty : StorageManager := ⟨Map.empty, Map.empty⟩

deriving instance DecidableEq for Except

/-- What a member function call does: the value it returns or the exception it throws, the
manager after the call, and the lines it wrote to `std::cout`. -/
structure Outcome (α : Type) where
  result : Except StorageError α
  manager : StorageManager
  out : List String

/-! ## The member functions -/

/-- The member function `addItem` (main.cpp lines 38-45). -/
def StorageManager.addItem (m : StorageManager) (item : StoredItem) : Outcome Unit :=
  if (m.itemById.find item.id).isSome then
    { result := .error (.DuplicateItemException ("Item with ID " ++ item.id ++ " already exists!")),
      manager := m,
      out := [] }
  else
    { result := .ok (),
      manager :=
        { itemById := m.itemById.assign item.id item,
          itemByDescription := m.itemByDescription.assign item.description item },
      out := ["Added: " ++ item.id ++ " - " ++ item.description] }

/-- The member function `findById` (main.cpp lines 47-53). -/
def StorageManager.findById (m : StorageManager) (id : String) : Outcome StoredItem :=
  match m.itemById.find id with
  | none =>
    { result := .error (.ItemNotFoundException ("Item with ID " ++ id ++ " not found!")),
      manager := m,
      out := [] }
  | some item => { result := .ok item, manager := m, out := [] }

/-- The member function `removeItem` (main.cpp lines 55-64). -/
def StorageManager.removeItem (m : StorageManager) (id : String) : Outcome Unit :=
  match m.itemById.find id with
  | none =>
    { result := .error (.ItemNotFoundException ("Item with ID " ++ id ++ " not found!")),
      manager := m,
      out := [] }
  | some item =>
    let description := item.description
    { result := .ok (),
      manager :=
        { itemById := m.itemById.erase id,
          itemByDescription := m.itemByDescription.erase description },
      out := ["Removed: " ++ id] }

/-- The line `listItemsByDescription` prints for one entry of `itemByDescription`. -/
def listingLine (pair : String × StoredItem) : String :=
  "- " ++ pair.2.description ++ ": " ++ pair.2.location

/-- The member function `listItemsByDescription` (main.cpp lines 66-72): a header line, then one
line per entry of `itemByDescription` in the container's iteration order. -/
def StorageManager.listItemsByDescription (m : StorageManager) : Outcome Unit :=
  { result := .ok (),
    manager := m,
    out := "Items in Description Order:" :: m.itemByDescription.entries.map listingLine }

/-- The items `listItemsByDescription` prints a line for, in the order of the lines. -/
def StorageManager.listedItems (m : StorageManager) : List StoredItem := m.itemByDescription.values

/-- The states a `StorageManager` can be in: the default-constructed one, and the state after
any call of `addItem` or `removeItem` (whether it returns or throws) on such a state. The
`const` member functions do not change the state. -/
inductive Reachable : StorageManager → Prop
  | empty : Reachable StorageManager.empty
  | add {m : StorageManager} (item : StoredItem) : Reachable m → Reachable (m.addItem item).manager
  | remove {m : StorageManager} (id : String) : Reachable m → Reachable (m.removeItem id).manager

/-- Successive `addItem` calls, one per item of the list, in order. -/
def addAll (m : StorageManager) : List StoredItem → StorageManager
  | [] => m
  | item :: rest => addAll (m.addItem item).manager rest

/-- The results (normal return or exception) of the successive `addItem` calls of `addAll`. -/
def addAllResults (m : StorageManager) : List StoredItem → List (Except StorageError Unit)
  | [] => []
  | item :: rest => (m.addItem item).result :: addAllResults (m.addItem item).manager rest

/-- The states reached when no `addItem` call that inserts its item finds the item's description
already a key of `itemByDescription`. -/
inductive ReachableFresh : StorageManager → Prop
  | empty : ReachableFresh StorageManager.empty
  | add {m : StorageManager} (item : StoredItem) :
      ReachableFresh m →
      (item.id ∉ m.itemById.keys → item.description ∉ m.itemByDescription.keys) →
      ReachableFresh (m.addItem item).manager
  | remove {m : StorageManager} (id : String) :
      ReachableFresh m → ReachableFresh (m.removeItem id).manager

/-! ## Invariants and predicates used in the statements -/

/-- Every entry of `itemById` is keyed by its item's id; every entry of `itemByDescription` is
keyed by its item's description, and its item is the one `itemById` stores under the item's
id. -/
def Coherent (m : StorageManager) : Prop :=
  (∀ k x, m.itemById.find k = some x → x.id = k) ∧
  (∀ d x, m.itemByDescription.find d = some x →
    x.description = d ∧ m.itemById.find x.id = some x)

/-- Every item stored in `itemById` is the entry of `itemByDescription` under its description. -/
def Covered (m : StorageManager) : Prop :=
  ∀ k x, m.itemById.find k = some x → m.itemByDescription.find x.description = some x

/-- The item `x` occurs in `items` with description `d`, and no later item of `items` has that
description. -/
def LastWith (items : List StoredItem) (d : String) (x : StoredItem) : Prop :=
  ∃ pre post, items = pre ++ x :: post ∧ x.description = d ∧ ∀ y ∈ post, y.description ≠ d

/-! ## Concrete items and managers -/

/-- Two items with different ids and the same description. -/
def widgetA : StoredItem := ⟨"X", "Widget", "Bin 1"⟩

/-- The second item with the description "Widget". -/
def widgetB : StoredItem := ⟨"Y", "Widget", "Bin 2"⟩

/-- The manager after `addItem(widgetA)` then `addItem(widgetB)` on a new manager. -/
def afterWidgets : StorageManager := addAll StorageManager.empty [widgetA, widgetB]

/-- The two items constructed in `main`. -/
def item1 : StoredItem := ⟨"ITEM001", "LED Light", "Aisle 3, Shelf 1"⟩

/-- The second item constructed in `main`. -/
def item2 : StoredItem := ⟨"ITEM002", "Fan Motor", "Aisle 2, Shelf 5"⟩

/-- The manager of `main` after its first `addItem` call. -/
def afterFirstAdd : StorageManager := (StorageManager.empty.addItem item1).manager

/-- The manager of `main` after its two `addItem` calls. -/
def afterBothAdds : StorageManager := addAll StorageManager.empty [item1, item2]

/-! ## The demonstration routines -/

/-- The NUL character, which ends a C string. -/
def nul : Char := Char.ofNat 0

/-- The text read through a `const char*` to the characters of `s`: the characters before the
first NUL, all of `s` when it has none. -/
def cString (s : String) : String := String.mk (s.toList.takeWhile (fun c => c != nul))

/-- The message `what()` of an exception. Both classes inherit `std::runtime_error::what()`,
which returns a `const char*` to the message the exception was constructed with, so the message
reads up to its first NUL character. -/
def StorageError.what : StorageError → String
  | .DuplicateItemException msg => cString msg
  | .ItemNotFoundException msg => cString msg

/-- What a demonstration routine does: the manager after it, the lines it wrote to `std::cout`
(through the member functions it calls), and the lines it wrote to `std::cerr`. -/
structure Run where
  manager : StorageManager
  cout : List String
  cerr : List String
deriving DecidableEq

/-- The function `testDuplicateAddition` (main.cpp lines 75-83): two `addItem` calls of one new
item inside a `try`; the first exception ends the block and is reported on `std::cerr`. -/
def testDuplicateAddition (manager : StorageManager) : Run :=
  let item : StoredItem := ⟨"ITEM001", "LED Light", "Aisle 3, Shelf 1"⟩
  let first := manager.addItem item
  match first.result with
  | .error e => { manager := first.manager, cout := first.out, cerr := ["Error: " ++ e.what] }
  | .ok _ =>
    let second := first.manager.addItem item
    match second.result with
    | .error e =>
      { manager := second.manager, cout := first.out ++ second.out,
        cerr := ["Error: " ++ e.what] }
    | .ok _ => { manager := second.manager, cout := first.out ++ second.out, cerr := [] }

/-- The function `testItemNotFound` (main.cpp lines 85-91): `removeItem("ITEM999")` inside a
`try`, the exception reported on `std::cerr`. -/
def testItemNotFound (manager : StorageManager) : Run :=
  let removal := manager.removeItem "ITEM999"
  match removal.result with
  | .error e => { manager := removal.manager, cout := removal.out, cerr := ["Error: " ++ e.what] }
  | .ok _ => { manager := removal.manager, cout := removal.out, cerr := [] }

/-- The function `main` (main.cpp lines 93-120). An exception of one of the two `addItem` calls
outside a `try` is not caught and ends the program: it is the `error` result. -/
def main : Except StorageError Run :=
  let manager := StorageManager.empty
  let add1 := manager.addItem item1
  match add1.result with
  | .error e => .error e
  | .ok _ =>
    let add2 := add1.manager.addItem item2
    match add2.result with
    | .error e => .error e
    | .ok _ =>
      let found := add2.manager.findById "ITEM002"
      let foundCout : List String :=
        match found.result with
        | .ok item => ["Found: " ++ item.description ++ " at " ++ item.location]
        | .error _ => []
      let foundCerr : List String :=
        match found.result with
        | .ok _ => []
        | .error e => ["Error: " ++ e.what]
      let notFound := testItemNotFound found.manager
      let duplicate := testDuplicateAddition notFound.manager
      let listing := duplicate.manager.listItemsByDescription
      .ok
        { manager := listing.manager,
          cout :=
            add1.out ++ add2.out ++ ["", "Retrieving ITEM002..."] ++ found.out ++ foundCout ++
              ["", "Removing ITEM003..."] ++ notFound.cout ++
              ["", "Testing duplicate addition..."] ++ duplicate.cout ++
              ["", "Listing all items by description:"] ++ listing.out,
          cerr := foundCerr ++ notFound.cerr ++ duplicate.cerr }

/-! ## The comparator is the lexicographic order of strings -/

theorem lexLess_iff_lt : ∀ (a b : List Char), lexLess a b = true ↔ a < b
  | _, [] => by simp [lexLess]
  | [], _ :: _ => by simpa [lexLess] using List.nil_lt_cons _ _
  | x :: xs, y :: ys => by
    have ih := lexLess_iff_lt xs ys
    simp only [lexLess]
    split_ifs with h1 h2
    · simp only [true_iff]
      exact List.Lex.rel (show x < y from h1)
    · simp only [Bool.false_eq_true, false_iff]
      intro h
      cases h with
      | cons h => exact h1 h2
      | rel h => exact h1 h
    · have : x = y := char_eq_of_toNat_eq (by omega)
      subst this
      rw [ih]
      exact (List.Lex.cons_iff).symm

theorem strLess_iff_lt (a b : String) : strLess a b = true ↔ a < b :=
  (lexLess_iff_lt _ _).trans String.lt_iff_toList_lt.symm

/-! ## Container lemmas -/

theorem Entries.find_after_assign (l : Entries) (k : String) (v : StoredItem) (k' : String) :
    Entries.find (Entries.assign l k v) k' = if k' = k then some v else Entries.find l k' := by
  induction l with
  | nil =>
    by_cases h : k = k'
    · simp [Entries.assign, Entries.find, h]
    · have h' : ¬ k' = k := fun e => h e.symm
      simp [Entries.assign, Entries.find, h, h']
  | cons q rest ih =>
    obtain ⟨a, b⟩ := q
    simp only [Entries.assign]
    by_cases h3 : k' = k
    · subst h3
      by_cases h1 : strLess k' a = true
      · simp [h1, Entries.find]
      · by_cases h2 : strLess a k' = true
        · have hne : ¬ a = k' := strLess_ne h2
          simp [h1, h2, Entries.find, hne, ih]
        · have hk : a = k' := (strLess_connex (by simpa using h1) (by simpa using h2)).symm
          subst hk
          simp [strLess_irrefl, Entries.find]
    · have h' : ¬ k = k' := fun e => h3 e.symm
      by_cases h1 : strLess k a = true
      · simp [h1, Entries.find, h', h3]
      · by_cases h2 : strLess a k = true
        · simp [h1, h2, Entries.find, ih, h3]
        · have hk : k = a := strLess_connex (by simpa using h1) (by simpa using h2)
          have h4 : ¬ a = k' := fun e => h3 (by rw [hk, e])
          simp [h1, h2, Entries.find, h4, h3]

theorem Entries.find_after_erase (l : Entries) (k k' : String) :
    Entries.find (Entries.erase l k) k' = if k' = k then none else Entries.find l k' := by
  induction l with
  | nil => simp [Entries.erase, Entries.find]
  | cons q rest ih =>
    obtain ⟨a, b⟩ := q
    simp only [Entries.erase] at ih
    by_cases h1 : a = k
    · subst h1
      by_cases h2 : k' = a
      · subst h2; simp [Entries.erase, List.filter_cons, ih]
      · have h' : ¬ a = k' := fun e => h2 e.symm
        simp [Entries.erase, List.filter_cons, ih, Entries.find, h2, h']
    · by_cases h2 : k' = k
      · subst h2; simp [Entries.erase, List.filter_cons, h1, Entries.find, ih]
      · simp [Entries.erase, List.filter_cons, h1, Entries.find, ih, h2]

theorem Entries.find_some_mem {l : Entries} {k : String} {v : StoredItem}
    (h : Entries.find l k = some v) : (k, v) ∈ l := by
  induction l with
  | nil => simp [Entries.find] at h
  | cons q rest ih =>
    obtain ⟨a, b⟩ := q
    simp only [Entries.find] at h
    split_ifs at h with h1
    · subst h1
      simp only [Option.some.injEq] at h
      simp [h]
    · exact List.mem_cons_of_mem _ (ih h)

theorem Entries.mem_find_some {l : Entries} (hl : Ascending l) {k : String} {v : StoredItem}
    (h : (k, v) ∈ l) : Entries.find l k = some v := by
  induction l with
  | nil => simp at h
  | cons q rest ih =>
    obtain ⟨a, b⟩ := q
    have hq := List.pairwise_cons.mp hl
    rcases List.mem_cons.mp h with h | h
    · simp only [Prod.mk.injEq] at h
      simp [Entries.find, h.1, h.2]
    · have hne : ¬ a = k := strLess_ne (hq.1 _ h)
      simp [Entries.find, hne, ih hq.2 h]

theorem Entries.find_none_iff (l : Entries) (k : String) :
    Entries.find l k = none ↔ k ∉ l.map Prod.fst := by
  induction l with
  | nil => simp [Entries.find]
  | cons q rest ih =>
    obtain ⟨a, b⟩ := q
    by_cases h : a = k
    · simp [Entries.find, h]
    · have h' : ¬ k = a := fun e => h e.symm
      simp only [Entries.find, h, if_false, ih]
      simp [h']

theorem Map.find_eq_some_iff (m : Map) (k : String) (v : StoredItem) :
    m.find k = some v ↔ (k, v) ∈ m.entries :=
  ⟨Entries.find_some_mem, Entries.mem_find_some m.ascending⟩

theorem Map.find_eq_none_iff (m : Map) (k : String) : m.find k = none ↔ k ∉ m.keys :=
  Entries.find_none_iff m.entries k

theorem Map.find_isSome_iff (m : Map) (k : String) : (m.find k).isSome = true ↔ k ∈ m.keys := by
  rw [← not_iff_not, ← Map.find_eq_none_iff]
  cases m.find k <;> simp

theorem Map.find_assign (m : Map) (k : String) (v : StoredItem) (k' : String) :
    (m.assign k v).find k' = if k' = k then some v else m.find k' :=
  Entries.find_after_assign m.entries k v k'

theorem Map.find_erase (m : Map) (k k' : String) :
    (m.erase k).find k' = if k' = k then none else m.find k' :=
  Entries.find_after_erase m.entries k k'

theorem Map.find_empty (k : String) : Map.empty.find k = none := rfl

/-! ## The member functions, case by case -/

theorem addItem_of_present {m : StorageManager} {item : StoredItem}
    (h : item.id ∈ m.itemById.keys) :
    m.addItem item =
      { result := .error (.DuplicateItemException ("Item with ID " ++ item.id ++ " already exists!")),
        manager := m,
        out := [] } := by
  have h' := (Map.find_isSome_iff _ _).mpr h
  simp [StorageManager.addItem, h']

theorem addItem_of_absent {m : StorageManager} {item : StoredItem}
    (h : item.id ∉ m.itemById.keys) :
    m.addItem item =
      { result := .ok (),
        manager :=
          { itemById := m.itemById.assign item.id item,
            itemByDescription := m.itemByDescription.assign item.description item },
        out := ["Added: " ++ item.id ++ " - " ++ item.description] } := by
  have h' := (Map.find_eq_none_iff _ _).mpr h
  simp [StorageManager.addItem, h']

theorem findById_of_absent {m : StorageManager} {id : String} (h : id ∉ m.itemById.keys) :
    m.findById id =
      { result := .error (.ItemNotFoundException ("Item with ID " ++ id ++ " not found!")),
        manager := m,
        out := [] } := by
  have h' := (Map.find_eq_none_iff _ _).mpr h
  simp [StorageManager.findById, h']

theorem findById_of_entry {m : StorageManager} {id : String} {x : StoredItem}
    (h : (id, x) ∈ m.itemById.entries) :
    m.findById id = { result := .ok x, manager := m, out := [] } := by
  have h' := (Map.find_eq_some_iff _ _ _).mpr h
  simp [StorageManager.findById, h']

theorem removeItem_of_absent {m : StorageManager} {id : String} (h : id ∉ m.itemById.keys) :
    m.removeItem id =
      { result := .error (.ItemNotFoundException ("Item with ID " ++ id ++ " not found!")),
        manager := m,
        out := [] } := by
  have h' := (Map.find_eq_none_iff _ _).mpr h
  simp [StorageManager.removeItem, h']

theorem removeItem_of_entry {m : StorageManager} {id : String} {x : StoredItem}
    (h : (id, x) ∈ m.itemById.entries) :
    m.removeItem id =
      { result := .ok (),
        manager :=
          { itemById := m.itemById.erase id,
            itemByDescription := m.itemByDescription.erase x.description },
        out := ["Removed: " ++ id] } := by
  have h' := (Map.find_eq_some_iff _ _ _).mpr h
  simp [StorageManager.removeItem, h']

theorem Map.mem_keys_iff (m : Map) (k : String) : k ∈ m.keys ↔ ∃ x, (k, x) ∈ m.entries := by
  simp [Map.keys]

theorem Map.mem_assign_entries (m : Map) (k : String) (v : StoredItem) (k' : String)
    (x : StoredItem) :
    (k', x) ∈ (m.assign k v).entries ↔ (k' = k ∧ x = v) ∨ (k' ≠ k ∧ (k', x) ∈ m.entries) := by
  rw [← Map.find_eq_some_iff, ← Map.find_eq_some_iff, Map.find_assign]
  by_cases h : k' = k
  · simp [h, eq_comm]
  · simp [h]

theorem Map.mem_erase_entries (m : Map) (k k' : String) (x : StoredItem) :
    (k', x) ∈ (m.erase k).entries ↔ k' ≠ k ∧ (k', x) ∈ m.entries := by
  rw [← Map.find_eq_some_iff, ← Map.find_eq_some_iff, Map.find_erase]
  by_cases h : k' = k
  · simp [h]
  · simp [h]

theorem Map.keys_sorted (m : Map) : m.keys.Sorted (· < ·) := by
  have h : m.entries.Pairwise (fun p q => p.1 < q.1) :=
    m.ascending.imp (fun {p q} hpq => (strLess_iff_lt p.1 q.1).mp hpq)
  exact (List.pairwise_map).mpr h

/-! ## The invariant of the reachable states -/

theorem Coherent.after_addItem {m : StorageManager} (h : Coherent m) (item : StoredItem) :
    Coherent (m.addItem item).manager := by
  by_cases hk : item.id ∈ m.itemById.keys
  · rw [addItem_of_present hk]; exact h
  · rw [addItem_of_absent hk]
    have hnone := (Map.find_eq_none_iff _ _).mpr hk
    refine ⟨?_, ?_⟩
    · intro k x hx
      simp only [Map.find_assign] at hx
      split_ifs at hx with h1
      · simp only [Option.some.injEq] at hx
        rw [← hx, h1]
      · exact h.1 k x hx
    · intro d x hx
      simp only [Map.find_assign] at hx ⊢
      split_ifs at hx with h1
      · simp only [Option.some.injEq] at hx
        subst hx
        simp [h1]
      · obtain ⟨h2, h3⟩ := h.2 d x hx
        refine ⟨h2, ?_⟩
        have hne : ¬ x.id = item.id := by
          intro e
          rw [e, hnone] at h3
          exact Option.noConfusion h3
        simp [hne, h3]

theorem Coherent.after_removeItem {m : StorageManager} (h : Coherent m) (id : String) :
    Coherent (m.removeItem id).manager := by
  by_cases hk : id ∈ m.itemById.keys
  · obtain ⟨it, hit⟩ := (Map.mem_keys_iff _ _).mp hk
    rw [removeItem_of_entry hit]
    have hfind := (Map.find_eq_some_iff _ _ _).mpr hit
    refine ⟨?_, ?_⟩
    · intro k x hx
      simp only [Map.find_erase] at hx
      split_ifs at hx with h1
      exact h.1 k x hx
    · intro d x hx
      simp only [Map.find_erase] at hx ⊢
      split_ifs at hx with h1
      obtain ⟨h2, h3⟩ := h.2 d x hx
      refine ⟨h2, ?_⟩
      have hne : ¬ x.id = id := by
        intro e
        rw [e, hfind] at h3
        simp only [Option.some.injEq] at h3
        exact h1 (by rw [← h2, h3])
      simp [hne, h3]
  · rw [removeItem_of_absent hk]; exact h

theorem Reachable.coherent {m : StorageManager} (h : Reachable m) : Coherent m := by
  induction h with
  | empty =>
    refine ⟨?_, ?_⟩ <;> intro k x hx <;> exact Option.noConfusion hx
  | add item _ ih => exact ih.after_addItem item
  | remove id _ ih => exact ih.after_removeItem id

theorem Reachable.addAll {m : StorageManager} (h : Reachable m) (items : List StoredItem) :
    Reachable (addAll m items) := by
  induction items generalizing m with
  | nil => exact h
  | cons a rest ih => exact ih (h.add a)

theorem ReachableFresh.reachable {m : StorageManager} (h : ReachableFresh m) : Reachable m := by
  induction h with
  | empty => exact Reachable.empty
  | add item _ _ ih => exact ih.add item
  | remove id _ ih => exact ih.remove id

theorem Map.mem_values_iff (m : Map) (x : StoredItem) :
    x ∈ m.values ↔ ∃ k, m.find k = some x := by
  simp [Map.values, Map.find_eq_some_iff]

theorem listedItems_descriptions {m : StorageManager} (h : Reachable m) :
    m.listedItems.map (fun x => x.description) = m.itemByDescription.keys := by
  simp only [StorageManager.listedItems, Map.values, Map.keys, List.map_map]
  apply List.map_congr_left
  intro p hp
  exact ((h.coherent).2 p.1 p.2 ((Map.find_eq_some_iff _ _ _).mpr hp)).1

theorem listing_out_eq (m : StorageManager) :
    m.listItemsByDescription.out =
      "Items in Description Order:" ::
        m.listedItems.map (fun x => "- " ++ x.description ++ ": " ++ x.location) := by
  simp [StorageManager.listItemsByDescription, StorageManager.listedItems, Map.values,
    listingLine, Function.comp_def]

/-! ## Successive insertions -/

theorem lastWith_cons (a : StoredItem) (rest : List StoredItem) (d : String) (x : StoredItem) :
    LastWith (a :: rest) d x ↔
      LastWith rest d x ∨ (x = a ∧ a.description = d ∧ ∀ y ∈ rest, y.description ≠ d) := by
  constructor
  · rintro ⟨pre, post, h1, h2, h3⟩
    cases pre with
    | nil =>
      simp only [List.nil_append, List.cons.injEq] at h1
      obtain ⟨h4, h5⟩ := h1
      subst h4 h5
      exact Or.inr ⟨rfl, h2, h3⟩
    | cons b pre =>
      simp only [List.cons_append, List.cons.injEq] at h1
      exact Or.inl ⟨pre, post, h1.2, h2, h3⟩
  · rintro (⟨pre, post, h1, h2, h3⟩ | ⟨h1, h2, h3⟩)
    · exact ⟨a :: pre, post, by simp [h1], h2, h3⟩
    · subst h1
      exact ⟨[], rest, rfl, h2, h3⟩

theorem addItem_manager_of_find_none {m : StorageManager} {item : StoredItem}
    (h : m.itemById.find item.id = none) :
    (m.addItem item).manager =
      { itemById := m.itemById.assign item.id item,
        itemByDescription := m.itemByDescription.assign item.description item } ∧
      (m.addItem item).result = .ok () := by
  rw [addItem_of_absent ((Map.find_eq_none_iff _ _).mp h)]
  exact ⟨rfl, rfl⟩

theorem addAll_fresh_step {m : StorageManager} {a : StoredItem} {rest : List StoredItem}
    (hnd : ((a :: rest).map (fun x => x.id)).Nodup)
    (hfresh : ∀ y ∈ a :: rest, m.itemById.find y.id = none) :
    (rest.map (fun x => x.id)).Nodup ∧
      (∀ y ∈ rest, y.id ≠ a.id) ∧
      ∀ y ∈ rest, (m.addItem a).manager.itemById.find y.id = none := by
  simp only [List.map_cons, List.nodup_cons, List.mem_map, not_exists, not_and] at hnd
  have hne : ∀ y ∈ rest, y.id ≠ a.id := fun y hy => hnd.1 y hy
  refine ⟨hnd.2, hne, ?_⟩
  intro y hy
  rw [(addItem_manager_of_find_none (hfresh a (List.mem_cons_self _ _))).1]
  simp only [Map.find_assign, hne y hy, if_false]
  exact hfresh y (List.mem_cons_of_mem _ hy)

theorem addAllResults_ok (items : List StoredItem) :
    ∀ (m : StorageManager), ((items.map (fun x => x.id)).Nodup) →
      (∀ y ∈ items, m.itemById.find y.id = none) →
      ∀ r ∈ addAllResults m items, r = .ok () := by
  induction items with
  | nil => intro m _ _ r hr; simp [addAllResults] at hr
  | cons a rest ih =>
    intro m hnd hfresh r hr
    obtain ⟨h1, _, h3⟩ := addAll_fresh_step hnd hfresh
    simp only [addAllResults, List.mem_cons] at hr
    rcases hr with hr | hr
    · rw [hr]; exact (addItem_manager_of_find_none (hfresh a (List.mem_cons_self _ _))).2
    · exact ih _ h1 h3 r hr

theorem addAll_itemById (items : List StoredItem) :
    ∀ (m : StorageManager), ((items.map (fun x => x.id)).Nodup) →
      (∀ y ∈ items, m.itemById.find y.id = none) →
      ∀ k x, (addAll m items).itemById.find k = some x ↔
        (x ∈ items ∧ x.id = k) ∨ (m.itemById.find k = some x ∧ ∀ y ∈ items, y.id ≠ k) := by
  induction items with
  | nil => intro m _ _ k x; simp [addAll]
  | cons a rest ih =>
    intro m hnd hfresh k x
    obtain ⟨h1, h2, h3⟩ := addAll_fresh_step hnd hfresh
    have ha := hfresh a (List.mem_cons_self _ _)
    simp only [addAll]
    rw [ih _ h1 h3 k x, (addItem_manager_of_find_none ha).1]
    simp only [Map.find_assign, List.mem_cons, forall_eq_or_imp]
    by_cases hk : k = a.id
    · subst hk
      simp only [if_true, Option.some.injEq, ha, false_and, or_false, reduceCtorEq]
      constructor
      · rintro (⟨hx, he⟩ | ⟨he, _⟩)
        · exact absurd he (h2 x hx)
        · exact ⟨Or.inl he.symm, by rw [← he]⟩
      · rintro ⟨hx | hx, he⟩
        · exact Or.inr ⟨hx.symm, fun y hy => h2 y hy⟩
        · exact absurd he (h2 x hx)
    · have hk' : ¬ a.id = k := fun e => hk e.symm
      simp only [hk, if_false, hk', not_false_eq_true, true_and]
      constructor
      · rintro (⟨hx, he⟩ | h)
        · exact Or.inl ⟨Or.inr hx, he⟩
        · exact Or.inr ⟨h.1, hk', h.2⟩
      · rintro (⟨hx | hx, he⟩ | h)
        · exact absurd (by rw [← he, hx]) hk
        · exact Or.inl ⟨hx, he⟩
        · exact Or.inr ⟨h.1, h.2.2⟩

theorem addAll_itemByDescription (items : List StoredItem) :
    ∀ (m : StorageManager), ((items.map (fun x => x.id)).Nodup) →
      (∀ y ∈ items, m.itemById.find y.id = none) →
      ∀ d x, (addAll m items).itemByDescription.find d = some x ↔
        LastWith items d x ∨
          (m.itemByDescription.find d = some x ∧ ∀ y ∈ items, y.description ≠ d) := by
  induction items with
  | nil =>
    intro m _ _ d x
    have : ¬ LastWith [] d x := by
      rintro ⟨pre, post, h, _⟩
      simp at h
    simp [addAll, this]
  | cons a rest ih =>
    intro m hnd hfresh d x
    obtain ⟨h1, _, h3⟩ := addAll_fresh_step hnd hfresh
    have ha := hfresh a (List.mem_cons_self _ _)
    simp only [addAll]
    rw [ih _ h1 h3 d x, (addItem_manager_of_find_none ha).1, lastWith_cons]
    simp only [Map.find_assign, List.mem_cons, forall_eq_or_imp]
    by_cases hd : d = a.description
    · subst hd
      simp only [if_true, Option.some.injEq, ne_eq, not_true_eq_false, false_and, and_false,
        or_false, true_and]
      constructor
      · rintro (h | ⟨he, h⟩)
        · exact Or.inl h
        · exact Or.inr ⟨he.symm, h⟩
      · rintro (h | ⟨he, h⟩)
        · exact Or.inl h
        · exact Or.inr ⟨he.symm, h⟩
    · have hd' : ¬ a.description = d := fun e => hd e.symm
      simp only [hd, if_false, hd', false_and, and_false, or_false, ne_eq, not_false_eq_true,
        true_and]

/-! ## Coherence of the two indexes -/

theorem ReachableFresh.covered {m : StorageManager} (h : ReachableFresh m) : Covered m := by
  induction h with
  | empty => intro k x hx; exact Option.noConfusion hx
  | @add m item hm hfresh ih =>
    by_cases hk : item.id ∈ m.itemById.keys
    · rw [addItem_of_present hk]; exact ih
    · rw [addItem_of_absent hk]
      have hd := (Map.find_eq_none_iff _ _).mpr (hfresh hk)
      intro k x hx
      simp only [Map.find_assign] at hx ⊢
      split_ifs at hx with h1
      · simp only [Option.some.injEq] at hx
        subst hx
        simp
      · have hold := ih k x hx
        have hne : ¬ x.description = item.description := by
          intro e
          rw [e, hd] at hold
          exact Option.noConfusion hold
        simp [hne, hold]
  | @remove m id hm ih =>
    by_cases hk : id ∈ m.itemById.keys
    · obtain ⟨it, hit⟩ := (Map.mem_keys_iff _ _).mp hk
      rw [removeItem_of_entry hit]
      have hfind := (Map.find_eq_some_iff _ _ _).mpr hit
      have hco := hm.reachable.coherent
      intro k x hx
      simp only [Map.find_erase] at hx ⊢
      split_ifs at hx with h1
      have hold := ih k x hx
      have hne : ¬ x.description = it.description := by
        intro e
        have h2 := ih id it hfind
        rw [← e, hold, Option.some.injEq] at h2
        have h3 := hco.1 k x hx
        have h4 := hco.1 id it hfind
        exact h1 (by rw [← h3, h2, h4])
      simp [hne, hold]
    · rw [removeItem_of_absent hk]; exact ih

/-! ## Claims -/

/-- C1: `addItem(item)` throws `DuplicateItemException` exactly when `item`'s id is already a key
of `itemById`, and returns normally otherwise. When it throws, the manager (both indexes) is
exactly as before the call and nothing is printed, so `findById` on that id still returns the
item stored originally. Adding the same item twice in a row always throws the second time. -/
theorem addItem_duplicate (m : StorageManager) (item : StoredItem) :
    ((∃ what, (m.addItem item).result = .error (.DuplicateItemException what)) ↔
        item.id ∈ m.itemById.keys) ∧
      (item.id ∉ m.itemById.keys → (m.addItem item).result = .ok ()) ∧
      (∀ e, (m.addItem item).result = .error e →
        (m.addItem item).manager = m ∧ (m.addItem item).out = [] ∧
          ∀ x, (item.id, x) ∈ m.itemById.entries →
            ((m.addItem item).manager.findById item.id).result = .ok x) ∧
      (∃ what,
        ((m.addItem item).manager.addItem item).result = .error (.DuplicateItemException what)) := by
  by_cases hk : item.id ∈ m.itemById.keys
  · refine ⟨?_, ?_, ?_, ?_⟩
    · simp [addItem_of_present hk, hk]
    · intro h; exact absurd hk h
    · intro e _
      rw [addItem_of_present hk]
      refine ⟨rfl, rfl, ?_⟩
      intro x hx
      rw [findById_of_entry hx]
    · rw [addItem_of_present hk]
      exact ⟨_, by rw [addItem_of_present hk]⟩
  · refine ⟨?_, ?_, ?_, ?_⟩
    · simp [addItem_of_absent hk, hk]
    · intro _; rw [addItem_of_absent hk]
    · intro e he
      rw [addItem_of_absent hk] at he
      exact Except.noConfusion he
    · have hin : item.id ∈ (m.addItem item).manager.itemById.keys := by
        rw [addItem_of_absent hk, ← Map.find_isSome_iff, Map.find_assign]
        simp
      exact ⟨_, by rw [addItem_of_present hin]⟩

/-- Witness for C1, the scenario of `testDuplicateAddition`: adding `item1` to the manager that
already holds it throws, leaves the manager as it was, and `findById` still returns `item1`. -/
theorem addItem_duplicate_witness :
    (afterFirstAdd.addItem item1).result =
        .error (.DuplicateItemException "Item with ID ITEM001 already exists!") ∧
      (afterFirstAdd.addItem item1).manager = afterFirstAdd ∧
      ((afterFirstAdd.addItem item1).manager.findById "ITEM001").result = .ok item1 :=
  have h := (addItem_duplicate afterFirstAdd item1).2.2.1
    (.DuplicateItemException "Item with ID ITEM001 already exists!") (by decide)
  ⟨by decide, h.1, h.2.2 item1 (by decide)⟩

/-- C2: `removeItem(id)` throws `ItemNotFoundException` exactly when `id` is not a key of
`itemById`, and returns normally otherwise. When it throws, the manager (both indexes) is exactly
as before the call and nothing is printed: every `findById` result and the listing are the
same. -/
theorem removeItem_not_found (m : StorageManager) (id : String) :
    ((∃ what, (m.removeItem id).result = .error (.ItemNotFoundException what)) ↔
        id ∉ m.itemById.keys) ∧
      (id ∈ m.itemById.keys → (m.removeItem id).result = .ok ()) ∧
      (∀ e, (m.removeItem id).result = .error e →
        (m.removeItem id).manager = m ∧ (m.removeItem id).out = [] ∧
          (∀ k, ((m.removeItem id).manager.findById k).result = (m.findById k).result) ∧
          (m.removeItem id).manager.listItemsByDescription.out = m.listItemsByDescription.out) := by
  by_cases hk : id ∈ m.itemById.keys
  · obtain ⟨x, hx⟩ := (Map.mem_keys_iff _ _).mp hk
    refine ⟨?_, ?_, ?_⟩
    · simp [removeItem_of_entry hx, hk]
    · intro _; rw [removeItem_of_entry hx]
    · intro e he
      rw [removeItem_of_entry hx] at he
      exact Except.noConfusion he
  · refine ⟨?_, ?_, ?_⟩
    · simp [removeItem_of_absent hk, hk]
    · intro h; exact absurd h hk
    · intro e _
      rw [removeItem_of_absent hk]
      exact ⟨rfl, rfl, fun _ => rfl, rfl⟩

/-- Witness for C2, the scenario of `testItemNotFound`: `removeItem("ITEM999")` on the manager of
`main` throws and leaves the manager as it was. -/
theorem removeItem_not_found_witness :
    (afterBothAdds.removeItem "ITEM999").result =
        .error (.ItemNotFoundException "Item with ID ITEM999 not found!") ∧
      (afterBothAdds.removeItem "ITEM999").manager = afterBothAdds :=
  ⟨by decide,
    ((removeItem_not_found afterBothAdds "ITEM999").2.2
      (.ItemNotFoundException "Item with ID ITEM999 not found!") (by decide)).1⟩

/-- C3: `findById(id)` throws `ItemNotFoundException` exactly when `id` is not a key of
`itemById`; it returns `x` exactly when `x` is the item stored under `id`; in both cases the
manager (both indexes) is unchanged and nothing is printed. -/
theorem findById_spec (m : StorageManager) (id : String) :
    ((∃ what, (m.findById id).result = .error (.ItemNotFoundException what)) ↔
        id ∉ m.itemById.keys) ∧
      (∀ x, (m.findById id).result = .ok x ↔ (id, x) ∈ m.itemById.entries) ∧
      (m.findById id).manager = m ∧ (m.findById id).out = [] := by
  by_cases hk : id ∈ m.itemById.keys
  · obtain ⟨x, hx⟩ := (Map.mem_keys_iff _ _).mp hk
    have hfind := (Map.find_eq_some_iff _ _ _).mpr hx
    refine ⟨?_, ?_, ?_, ?_⟩
    · simp [findById_of_entry hx, hk]
    · intro y
      rw [findById_of_entry hx, ← Map.find_eq_some_iff, hfind]
      simp
    · rw [findById_of_entry hx]
    · rw [findById_of_entry hx]
  · refine ⟨?_, ?_, ?_, ?_⟩
    · simp [findById_of_absent hk, hk]
    · intro y
      rw [findById_of_absent hk]
      constructor
      · intro h; exact Except.noConfusion h
      · intro h; exact absurd ((Map.mem_keys_iff _ _).mpr ⟨y, h⟩) hk
    · rw [findById_of_absent hk]
    · rw [findById_of_absent hk]

/-- Witness for C3, the lookup of `main`: `findById("ITEM002")` returns `item2`. -/
theorem findById_spec_witness : (afterBothAdds.findById "ITEM002").result = .ok item2 :=
  ((findById_spec afterBothAdds "ITEM002").2.1 item2).mpr (by decide)

/-- C4: round trip. When `item`'s id is not yet a key of `itemById`, `addItem(item)` returns
normally and `findById(item.id)` right after it returns an item equal to `item`, so equal in id,
description and location. -/
theorem addItem_findById_roundtrip (m : StorageManager) (item : StoredItem)
    (h : item.id ∉ m.itemById.keys) :
    (m.addItem item).result = .ok () ∧
      ∃ found, ((m.addItem item).manager.findById item.id).result = .ok found ∧
        found = item ∧ found.id = item.id ∧ found.description = item.description ∧
        found.location = item.location := by
  rw [addItem_of_absent h]
  refine ⟨rfl, item, ?_, rfl, rfl, rfl, rfl⟩
  have hin : (item.id, item) ∈ (m.itemById.assign item.id item).entries :=
    (Map.mem_assign_entries _ _ _ _ _).mpr (Or.inl ⟨rfl, rfl⟩)
  exact congrArg Outcome.result
    (findById_of_entry
      (m := ⟨m.itemById.assign item.id item, m.itemByDescription.assign item.description item⟩)
      hin)

/-- Witness for C4: `item2` added to the manager holding `item1`, then looked up. -/
theorem addItem_findById_roundtrip_witness :
    "ITEM002" ∉ afterFirstAdd.itemById.keys ∧
      (afterFirstAdd.addItem item2).result = .ok () ∧
      ∃ found, ((afterFirstAdd.addItem item2).manager.findById "ITEM002").result = .ok found ∧
        found = item2 ∧ found.id = "ITEM002" ∧ found.description = "Fan Motor" ∧
        found.location = "Aisle 2, Shelf 5" :=
  ⟨by decide, addItem_findById_roundtrip afterFirstAdd item2 (by decide)⟩

/-- C5: when `item`'s id is not a key of `itemById`, `addItem(item)` returns normally; the entries
of `itemById` afterwards are `item.id -> item` and the old entries under the other ids; the
entries of `itemByDescription` afterwards are `item.description -> item` and the old entries under
the other descriptions (an old entry under `item.description` is replaced). -/
theorem addItem_success_indexes (m : StorageManager) (item : StoredItem)
    (h : item.id ∉ m.itemById.keys) :
    (m.addItem item).result = .ok () ∧
      (∀ k x, (k, x) ∈ (m.addItem item).manager.itemById.entries ↔
        (k = item.id ∧ x = item) ∨ (k ≠ item.id ∧ (k, x) ∈ m.itemById.entries)) ∧
      (∀ d x, (d, x) ∈ (m.addItem item).manager.itemByDescription.entries ↔
        (d = item.description ∧ x = item) ∨
          (d ≠ item.description ∧ (d, x) ∈ m.itemByDescription.entries)) := by
  rw [addItem_of_absent h]
  exact ⟨rfl, fun k x => Map.mem_assign_entries _ _ _ _ _,
    fun d x => Map.mem_assign_entries _ _ _ _ _⟩

/-- Witness for C5: adding `item2` to the manager holding `item1` gives the two indexes of
`main`, `itemByDescription` with "Fan Motor" before "LED Light". -/
theorem addItem_success_indexes_witness :
    (afterFirstAdd.addItem item2).result = .ok () ∧
      ("ITEM002", item2) ∈ (afterFirstAdd.addItem item2).manager.itemById.entries ∧
      ("ITEM001", item1) ∈ (afterFirstAdd.addItem item2).manager.itemById.entries ∧
      (afterFirstAdd.addItem item2).manager.itemByDescription.entries =
        [("Fan Motor", item2), ("LED Light", item1)] :=
  have h := addItem_success_indexes afterFirstAdd item2 (by decide)
  ⟨h.1, (h.2.1 _ _).mpr (Or.inl ⟨rfl, rfl⟩),
    (h.2.1 _ _).mpr (Or.inr ⟨by decide, by decide⟩), by decide⟩

/-- C6: `listItemsByDescription` returns normally and leaves the manager (both indexes) unchanged.
After its header line it prints exactly one line per entry of `itemByDescription`, the i-th line
showing the description and the location of the item of the i-th entry, and the keys of the
entries are in strictly ascending lexicographic order. In a reachable state the description
printed for an entry is the entry's key. -/
theorem listItemsByDescription_spec (m : StorageManager) :
    m.listItemsByDescription.result = .ok () ∧
      m.listItemsByDescription.manager = m ∧
      (∃ lines, m.listItemsByDescription.out = "Items in Description Order:" :: lines ∧
        lines.length = m.itemByDescription.entries.length ∧
        ∀ (i : Nat) (h1 : i < lines.length) (h2 : i < m.itemByDescription.entries.length),
          lines[i] =
            "- " ++ (m.itemByDescription.entries[i]).2.description ++ ": " ++
              (m.itemByDescription.entries[i]).2.location) ∧
      m.itemByDescription.keys.Sorted (· < ·) ∧
      (Reachable m → ∀ p ∈ m.itemByDescription.entries, p.2.description = p.1) := by
  refine ⟨rfl, rfl, ⟨m.itemByDescription.entries.map listingLine, rfl, by simp, ?_⟩,
    Map.keys_sorted _, ?_⟩
  · intro i h1 h2
    simp [listingLine]
  · intro hr p hp
    exact ((hr.coherent).2 p.1 p.2 ((Map.find_eq_some_iff _ _ _).mpr hp)).1

/-- Witness for C6, the listing of `main`: the header, then "Fan Motor", then "LED Light". -/
theorem listItemsByDescription_spec_witness :
    afterBothAdds.listItemsByDescription.out =
        ["Items in Description Order:", "- Fan Motor: Aisle 2, Shelf 5",
          "- LED Light: Aisle 3, Shelf 1"] ∧
      afterBothAdds.itemByDescription.keys = ["Fan Motor", "LED Light"] ∧
      afterBothAdds.itemByDescription.keys.Sorted (· < ·) :=
  ⟨by decide, by decide, (listItemsByDescription_spec afterBothAdds).2.2.2.1⟩

/-- C7, as stated, fails: `widgetA` and `widgetB` have distinct ids, both `addItem` calls return
normally, and the listing shows `widgetB` only, not all of the inserted items. -/
theorem addAll_listing_counterexample :
    ([widgetA, widgetB].map (fun x => x.id)).Nodup ∧
      addAllResults StorageManager.empty [widgetA, widgetB] = [.ok (), .ok ()] ∧
      widgetA ∈ [widgetA, widgetB] ∧
      widgetA ∉ (addAll StorageManager.empty [widgetA, widgetB]).listedItems ∧
      (addAll StorageManager.empty [widgetA, widgetB]).listItemsByDescription.out =
        ["Items in Description Order:", "- Widget: Bin 2"] := by
  decide

/-- C7, amended: for every finite sequence of items with pairwise distinct ids inserted with
`addItem` into a new manager, every `addItem` returns normally, `findById` returns the exact item
inserted for every id of the sequence, and `listItemsByDescription` lists, in strictly ascending
order of description, exactly the inserted items whose description is not repeated by a later
item of the sequence; these are all the inserted items when the descriptions are pairwise
distinct. -/
theorem addAll_distinct_ids (items : List StoredItem)
    (h : (items.map (fun x => x.id)).Nodup) :
    (∀ r ∈ addAllResults StorageManager.empty items, r = .ok ()) ∧
      (∀ x ∈ items, ((addAll StorageManager.empty items).findById x.id).result = .ok x) ∧
      (∀ x, x ∈ (addAll StorageManager.empty items).listedItems ↔
        ∃ pre post, items = pre ++ x :: post ∧ ∀ y ∈ post, y.description ≠ x.description) ∧
      ((addAll StorageManager.empty items).listedItems.map (fun x => x.description)).Sorted
        (· < ·) ∧
      (addAll StorageManager.empty items).listItemsByDescription.out =
        "Items in Description Order:" ::
          (addAll StorageManager.empty items).listedItems.map
            (fun x => "- " ++ x.description ++ ": " ++ x.location) ∧
      ((items.map (fun x => x.description)).Nodup →
        ∀ x, x ∈ (addAll StorageManager.empty items).listedItems ↔ x ∈ items) := by
  have hfresh : ∀ y ∈ items, StorageManager.empty.itemById.find y.id = none := fun _ _ => rfl
  have hlisted : ∀ x, x ∈ (addAll StorageManager.empty items).listedItems ↔
      ∃ pre post, items = pre ++ x :: post ∧ ∀ y ∈ post, y.description ≠ x.description := by
    intro x
    rw [StorageManager.listedItems, Map.mem_values_iff]
    constructor
    · rintro ⟨d, hd⟩
      rcases (addAll_itemByDescription items _ h hfresh d x).mp hd with ⟨pre, post, h1, h2, h3⟩ | h1
      · exact ⟨pre, post, h1, by rw [h2]; exact h3⟩
      · exact Option.noConfusion h1.1
    · rintro ⟨pre, post, h1, h2⟩
      exact ⟨x.description,
        (addAll_itemByDescription items _ h hfresh _ x).mpr (Or.inl ⟨pre, post, h1, rfl, h2⟩)⟩
  refine ⟨addAllResults_ok items _ h hfresh, ?_, hlisted, ?_, listing_out_eq _, ?_⟩
  · intro x hx
    have hfind := (addAll_itemById items _ h hfresh x.id x).mpr (Or.inl ⟨hx, rfl⟩)
    rw [findById_of_entry ((Map.find_eq_some_iff _ _ _).mp hfind)]
  · rw [listedItems_descriptions (Reachable.empty.addAll items)]
    exact Map.keys_sorted _
  · intro hnd x
    rw [hlisted]
    constructor
    · rintro ⟨pre, post, h1, _⟩
      rw [h1]; simp
    · intro hx
      obtain ⟨pre, post, h1⟩ := List.append_of_mem hx
      refine ⟨pre, post, h1, ?_⟩
      intro y hy he
      rw [h1] at hnd
      simp only [List.map_append, List.map_cons] at hnd
      have h2 := (List.nodup_cons.mp (List.nodup_append.mp hnd).2.1).1
      exact h2 (by rw [← he]; exact List.mem_map_of_mem _ hy)

/-- Witness for C7, amended: the two items of `main`, listed "Fan Motor" first. -/
theorem addAll_distinct_ids_witness :
    ([item1, item2].map (fun x => x.id)).Nodup ∧
      (∀ r ∈ addAllResults StorageManager.empty [item1, item2], r = .ok ()) ∧
      (∀ x ∈ [item1, item2],
        ((addAll StorageManager.empty [item1, item2]).findById x.id).result = .ok x) ∧
      (addAll StorageManager.empty [item1, item2]).listedItems = [item2, item1] :=
  have h := addAll_distinct_ids [item1, item2] (by decide)
  ⟨by decide, h.1, h.2.1, by decide⟩

/-- C8, as stated, fails: after the successful `addItem(widgetB)` the reachable manager stores
`widgetA` in `itemById` and not in `itemByDescription`. -/
theorem index_coherence_counterexample :
    Reachable afterWidgets ∧
      ((StorageManager.empty.addItem widgetA).manager.addItem widgetB).result = .ok () ∧
      ((StorageManager.empty.addItem widgetA).manager.addItem widgetB).manager = afterWidgets ∧
      widgetA ∈ afterWidgets.itemById.values ∧
      widgetA ∉ afterWidgets.itemByDescription.values :=
  ⟨Reachable.empty.addAll _, by decide, by decide, by decide, by decide⟩

/-- C8, amended: in every state reached from the empty manager by `addItem`/`removeItem` calls,
every item stored in `itemByDescription` is also stored in `itemById`; and when no `addItem` call
of the sequence inserted an item under a description that was a key of `itemByDescription` at the
time of the call, the two indexes store exactly the same set of items. -/
theorem index_coherence (m : StorageManager) :
    (Reachable m → ∀ x ∈ m.itemByDescription.values, x ∈ m.itemById.values) ∧
      (ReachableFresh m → ∀ x, x ∈ m.itemById.values ↔ x ∈ m.itemByDescription.values) := by
  have hsub : Reachable m → ∀ x ∈ m.itemByDescription.values, x ∈ m.itemById.values := by
    intro hr x hx
    obtain ⟨d, hd⟩ := (Map.mem_values_iff _ _).mp hx
    exact (Map.mem_values_iff _ _).mpr ⟨x.id, (hr.coherent.2 d x hd).2⟩
  refine ⟨hsub, ?_⟩
  intro hf x
  constructor
  · intro hx
    obtain ⟨k, hk⟩ := (Map.mem_values_iff _ _).mp hx
    exact (Map.mem_values_iff _ _).mpr ⟨x.description, hf.covered k x hk⟩
  · exact hsub hf.reachable x

/-- Witness for C8, amended: the manager of `main` after its two `addItem` calls stores the same
two items in both indexes. -/
theorem index_coherence_witness :
    ReachableFresh afterBothAdds ∧
      ∀ x, x ∈ afterBothAdds.itemById.values ↔ x ∈ afterBothAdds.itemByDescription.values :=
  have hr : ReachableFresh afterBothAdds :=
    ReachableFresh.add item2 (ReachableFresh.add item1 ReachableFresh.empty (by decide))
      (by decide)
  ⟨hr, (index_coherence afterBothAdds).2 hr⟩

/-- C9 fails on the code: with `widgetA` then `widgetB` inserted, `itemByDescription` holds
`widgetB` under "Widget"; `removeItem("X")` (the id of `widgetA`) returns normally and erases that
entry, so the listing shows nothing although `findById("Y")` still returns `widgetB`. -/
theorem removeItem_drops_newer_item :
    Reachable afterWidgets ∧
      afterWidgets.itemById.entries = [("X", widgetA), ("Y", widgetB)] ∧
      afterWidgets.itemByDescription.entries = [("Widget", widgetB)] ∧
      (afterWidgets.removeItem "X").result = .ok () ∧
      (afterWidgets.removeItem "X").manager.itemByDescription.entries = [] ∧
      (afterWidgets.removeItem "X").manager.listItemsByDescription.out =
        ["Items in Description Order:"] ∧
      ((afterWidgets.removeItem "X").manager.findById "Y").result = .ok widgetB :=
  ⟨Reachable.empty.addAll _, by decide, by decide, by decide, by decide, by decide, by decide⟩

/-- C10: in every state reached from the empty manager by `addItem`/`removeItem` calls, for every
id that is a key of `itemById`, `removeItem(id)` returns normally, `findById(id)` right after it
throws `ItemNotFoundException`, and no item the listing then prints a line for has that id. -/
theorem removeItem_then_absent (m : StorageManager) (hr : Reachable m) (id : String)
    (hk : id ∈ m.itemById.keys) :
    (m.removeItem id).result = .ok () ∧
      ((m.removeItem id).manager.findById id).result =
        .error (.ItemNotFoundException ("Item with ID " ++ id ++ " not found!")) ∧
      (∀ x ∈ (m.removeItem id).manager.listedItems, x.id ≠ id) ∧
      (m.removeItem id).manager.listItemsByDescription.out =
        "Items in Description Order:" ::
          (m.removeItem id).manager.listedItems.map
            (fun x => "- " ++ x.description ++ ": " ++ x.location) := by
  have hco := (hr.remove id).coherent
  have hres : (m.removeItem id).result = .ok () ∧
      (m.removeItem id).manager.itemById.find id = none := by
    obtain ⟨it, hit⟩ := (Map.mem_keys_iff _ _).mp hk
    rw [removeItem_of_entry hit]
    exact ⟨rfl, by simp [Map.find_erase]⟩
  refine ⟨hres.1, ?_, ?_, listing_out_eq _⟩
  · rw [findById_of_absent ((Map.find_eq_none_iff _ _).mp hres.2)]
  · intro x hx he
    obtain ⟨d, hd⟩ := (Map.mem_values_iff _ _).mp hx
    have h1 := (hco.2 d x hd).2
    rw [he, hres.2] at h1
    exact Option.noConfusion h1

/-- Witness for C10: removing "ITEM001" from the manager of `main` leaves "ITEM002" alone in the
listing, and "ITEM001" is no longer found. -/
theorem removeItem_then_absent_witness :
    "ITEM001" ∈ afterBothAdds.itemById.keys ∧
      ((afterBothAdds.removeItem "ITEM001").manager.findById "ITEM001").result =
        .error (.ItemNotFoundException "Item with ID ITEM001 not found!") ∧
      (afterBothAdds.removeItem "ITEM001").manager.listedItems = [item2] :=
  have h := removeItem_then_absent afterBothAdds (Reachable.empty.addAll _) "ITEM001" (by decide)
  ⟨by decide, h.2.1, by decide⟩

/-! ## Further lemmas -/

theorem findById_result_congr {m1 m2 : StorageManager} {k : String}
    (h : m1.itemById.find k = m2.itemById.find k) :
    (m1.findById k).result = (m2.findById k).result := by
  simp only [StorageManager.findById, h]
  cases m2.itemById.find k <;> rfl

theorem findById_result_of_find {m : StorageManager} {k : String} {x : StoredItem}
    (h : m.itemById.find k = some x) : (m.findById k).result = .ok x := by
  rw [findById_of_entry ((Map.find_eq_some_iff _ _ _).mp h)]

theorem addItem_itemById_find (m : StorageManager) (item : StoredItem) (k : String)
    (h : k ≠ item.id) : (m.addItem item).manager.itemById.find k = m.itemById.find k := by
  by_cases hk : item.id ∈ m.itemById.keys
  · rw [addItem_of_present hk]
  · rw [addItem_of_absent hk]
    simp [Map.find_assign, h]

theorem removeItem_itemById_find (m : StorageManager) (id k : String) (h : k ≠ id) :
    (m.removeItem id).manager.itemById.find k = m.itemById.find k := by
  by_cases hk : id ∈ m.itemById.keys
  · obtain ⟨x, hx⟩ := (Map.mem_keys_iff _ _).mp hk
    rw [removeItem_of_entry hx]
    simp [Map.find_erase, h]
  · rw [removeItem_of_absent hk]

theorem Map.keys_nodup (m : Map) : m.keys.Nodup := by
  have h : m.entries.Pairwise (fun p q => p.1 ≠ q.1) :=
    m.ascending.imp (fun {p q} hpq => strLess_ne hpq)
  exact (List.pairwise_map).mpr h

theorem Map.entries_nodup (m : Map) : m.entries.Nodup :=
  List.Nodup.of_map Prod.fst m.keys_nodup

theorem Map.ext_find {a b : Map} (h : ∀ k, a.find k = b.find k) : a = b := by
  apply Map.eq_of_entries_eq
  have hperm : a.entries.Perm b.entries := by
    rw [List.perm_ext_iff_of_nodup a.entries_nodup b.entries_nodup]
    rintro ⟨k, v⟩
    rw [← Map.find_eq_some_iff, ← Map.find_eq_some_iff, h k]
  haveI : IsAntisymm (String × StoredItem) (fun p q => strLess p.1 q.1 = true) :=
    ⟨fun p q h1 h2 => by
      have h3 := strLess_trans h1 h2
      rw [strLess_irrefl] at h3
      exact absurd h3 Bool.false_ne_true⟩
  exact List.eq_of_perm_of_sorted hperm a.ascending b.ascending

theorem Map.assign_comm (m : Map) {k1 k2 : String} (h : k1 ≠ k2) (v1 v2 : StoredItem) :
    (m.assign k1 v1).assign k2 v2 = (m.assign k2 v2).assign k1 v1 := by
  apply Map.ext_find
  intro k
  simp only [Map.find_assign]
  by_cases h1 : k = k1
  · subst h1
    simp [h]
  · simp [h1]

theorem Map.erase_assign_of_not_mem (m : Map) {k : String} (h : k ∉ m.keys) (v : StoredItem) :
    (m.assign k v).erase k = m := by
  apply Map.ext_find
  intro k'
  simp only [Map.find_erase, Map.find_assign]
  by_cases h1 : k' = k
  · subst h1
    simp [(Map.find_eq_none_iff _ _).mpr h]
  · simp [h1]

theorem addAll_pair (m : StorageManager) (a b : StoredItem) (hid : a.id ≠ b.id)
    (ha : a.id ∉ m.itemById.keys) (hb : b.id ∉ m.itemById.keys) :
    addAll m [a, b] =
        { itemById := (m.itemById.assign a.id a).assign b.id b,
          itemByDescription :=
            (m.itemByDescription.assign a.description a).assign b.description b } ∧
      addAllResults m [a, b] = [.ok (), .ok ()] := by
  have hb' : b.id ∉ (m.addItem a).manager.itemById.keys := by
    rw [← Map.find_eq_none_iff, addItem_itemById_find m a b.id (Ne.symm hid)]
    exact (Map.find_eq_none_iff _ _).mpr hb
  simp only [addAll, addAllResults]
  rw [addItem_of_absent hb']
  rw [addItem_of_absent ha]
  exact ⟨rfl, rfl⟩

/-- C12: operations on other ids never change what is stored under an id. For every manager and
every `k`, `findById(k)` gives the same result (the same item, or the same exception) after
`addItem(item)` as before it when `k` differs from `item.id`, and the same result after
`removeItem(id)` as before it when `k` differs from `id`. -/
theorem findById_frame (m : StorageManager) (k : String) :
    (∀ item : StoredItem, k ≠ item.id →
        ((m.addItem item).manager.findById k).result = (m.findById k).result) ∧
      (∀ id : String, k ≠ id →
        ((m.removeItem id).manager.findById k).result = (m.findById k).result) :=
  ⟨fun item h => findById_result_congr (addItem_itemById_find m item k h),
    fun id h => findById_result_congr (removeItem_itemById_find m id k h)⟩

/-- Witness for C12: `item1` is found unchanged after the successful `addItem(item2)` and after
the successful `removeItem("ITEM002")`. -/
theorem findById_frame_witness :
    (afterFirstAdd.addItem item2).result = .ok () ∧
      ((afterFirstAdd.addItem item2).manager.findById "ITEM001").result = .ok item1 ∧
      (afterBothAdds.removeItem "ITEM002").result = .ok () ∧
      ((afterBothAdds.removeItem "ITEM002").manager.findById "ITEM001").result = .ok item1 :=
  ⟨by decide,
    ((findById_frame afterFirstAdd "ITEM001").1 item2 (by decide)).trans (by decide),
    by decide,
    ((findById_frame afterBothAdds "ITEM001").2 "ITEM002" (by decide)).trans (by decide)⟩

/-- C13: the scenario of `main`. On a new manager `addItem(item1)` and `addItem(item2)` both
return normally; `findById("ITEM002")` returns an item with description "Fan Motor" and location
"Aisle 2, Shelf 5"; `removeItem("ITEM999")` throws `ItemNotFoundException`; `addItem` of any item
with id "ITEM001" throws `DuplicateItemException`; the final listing prints, after its header,
exactly the two entries "Fan Motor" then "LED Light". The whole output of `main` follows. -/
theorem main_scenario :
    (StorageManager.empty.addItem item1).result = .ok () ∧
      ((StorageManager.empty.addItem item1).manager.addItem item2).result = .ok () ∧
      ((StorageManager.empty.addItem item1).manager.addItem item2).manager = afterBothAdds ∧
      (∃ found, (afterBothAdds.findById "ITEM002").result = .ok found ∧
        found.description = "Fan Motor" ∧ found.location = "Aisle 2, Shelf 5") ∧
      (afterBothAdds.removeItem "ITEM999").result =
        .error (.ItemNotFoundException "Item with ID ITEM999 not found!") ∧
      (afterBothAdds.removeItem "ITEM999").manager = afterBothAdds ∧
      (∀ description location : String,
        (afterBothAdds.addItem ⟨"ITEM001", description, location⟩).result =
            .error (.DuplicateItemException "Item with ID ITEM001 already exists!") ∧
          (afterBothAdds.addItem ⟨"ITEM001", description, location⟩).manager = afterBothAdds) ∧
      (testDuplicateAddition (testItemNotFound afterBothAdds).manager).manager = afterBothAdds ∧
      afterBothAdds.listItemsByDescription.out =
        ["Items in Description Order:", "- Fan Motor: Aisle 2, Shelf 5",
          "- LED Light: Aisle 3, Shelf 1"] ∧
      afterBothAdds.listedItems.map (fun x => x.description) = ["Fan Motor", "LED Light"] ∧
      main = .ok
        { manager := afterBothAdds,
          cout :=
            ["Added: ITEM001 - LED Light", "Added: ITEM002 - Fan Motor",
              "", "Retrieving ITEM002...", "Found: Fan Motor at Aisle 2, Shelf 5",
              "", "Removing ITEM003...",
              "", "Testing duplicate addition...",
              "", "Listing all items by description:",
              "Items in Description Order:", "- Fan Motor: Aisle 2, Shelf 5",
              "- LED Light: Aisle 3, Shelf 1"],
          cerr :=
            ["Error: Item with ID ITEM999 not found!",
              "Error: Item with ID ITEM001 already exists!"] } := by
  refine ⟨by decide, by decide, by decide, ⟨item2, by decide, rfl, rfl⟩, by decide, by decide, ?_,
    by decide, by decide, by decide, by decide⟩
  intro description location
  have hk0 : "ITEM001" ∈ afterBothAdds.itemById.keys := by decide
  have hk : (StoredItem.mk "ITEM001" description location).id ∈ afterBothAdds.itemById.keys :=
    hk0
  rw [addItem_of_present hk]
  exact ⟨rfl, rfl⟩

/-- C16: key consistency and one-way coherence. In every state reached from the empty manager by
`addItem`/`removeItem` calls (calls that throw included), every entry `k -> x` of `itemById` has
`x.id = k`, and every entry `d -> x` of `itemByDescription` has `x.description = d` and `itemById`
holds `x` under `x.id`, so `findById(x.id)` returns `x`. -/
theorem reachable_key_consistency (m : StorageManager) (h : Reachable m) :
    (∀ k x, (k, x) ∈ m.itemById.entries → x.id = k) ∧
      (∀ d x, (d, x) ∈ m.itemByDescription.entries →
        x.description = d ∧ (x.id, x) ∈ m.itemById.entries ∧
          (m.findById x.id).result = .ok x) := by
  have hco := h.coherent
  refine ⟨?_, ?_⟩
  · intro k x hx
    exact hco.1 k x ((Map.find_eq_some_iff _ _ _).mpr hx)
  · intro d x hx
    obtain ⟨h1, h2⟩ := hco.2 d x ((Map.find_eq_some_iff _ _ _).mpr hx)
    exact ⟨h1, (Map.find_eq_some_iff _ _ _).mp h2, findById_result_of_find h2⟩

/-- Witness for C16: the state after `addItem(widgetA)`, `addItem(widgetB)`, a failed
`removeItem("Z")` and `removeItem("X")`. -/
theorem reachable_key_consistency_witness :
    Reachable ((afterWidgets.removeItem "Z").manager.removeItem "X").manager ∧
      ((afterWidgets.removeItem "Z").manager.removeItem "X").manager.itemById.entries =
        [("Y", widgetB)] ∧
      (∀ k x, (k, x) ∈ ((afterWidgets.removeItem "Z").manager.removeItem "X").manager.itemById.entries →
        x.id = k) :=
  have hr : Reachable ((afterWidgets.removeItem "Z").manager.removeItem "X").manager :=
    ((Reachable.empty.addAll [widgetA, widgetB]).remove "Z").remove "X"
  ⟨hr, by decide, (reachable_key_consistency _ hr).1⟩

/-- C17: in every state reached from the empty manager by `addItem`/`removeItem` calls, the
listing has at most as many entries as `itemById` has ids, and the listed items have pairwise
distinct ids. -/
theorem listing_bounded (m : StorageManager) (h : Reachable m) :
    m.listedItems.length ≤ m.itemById.keys.length ∧
      (m.listedItems.map (fun x => x.id)).Nodup ∧
      m.listItemsByDescription.out.length = m.listedItems.length + 1 := by
  have hco := h.coherent
  have hfind : ∀ p ∈ m.itemByDescription.entries,
      p.2.description = p.1 ∧ m.itemById.find p.2.id = some p.2 := fun p hp =>
    hco.2 p.1 p.2 ((Map.find_eq_some_iff _ _ _).mpr hp)
  have hnd : (m.listedItems.map (fun x => x.id)).Nodup := by
    simp only [StorageManager.listedItems, Map.values, List.map_map]
    apply List.Nodup.map_on _ m.itemByDescription.entries_nodup
    intro p hp q hq hpq
    simp only [Function.comp_apply] at hpq
    have h1 := (hfind p hp).2
    rw [hpq, (hfind q hq).2, Option.some.injEq] at h1
    have h2 : p.1 = q.1 := by rw [← (hfind p hp).1, ← (hfind q hq).1, h1]
    exact Prod.ext h2 h1.symm
  have hsub : m.listedItems.map (fun x => x.id) ⊆ m.itemById.keys := by
    intro k hk
    simp only [StorageManager.listedItems, Map.values, List.map_map, List.mem_map,
      Function.comp_apply] at hk
    obtain ⟨p, hp, rfl⟩ := hk
    rw [← Map.find_isSome_iff, (hfind p hp).2]
    rfl
  refine ⟨?_, hnd, ?_⟩
  · have := (hnd.subperm hsub).length_le
    simpa using this
  · simp [listing_out_eq]

/-- Witness for C17: after `widgetA` and `widgetB` the listing has one entry and `itemById` two
ids. -/
theorem listing_bounded_witness :
    Reachable afterWidgets ∧ afterWidgets.listedItems.length = 1 ∧
      afterWidgets.itemById.keys.length = 2 ∧
      afterWidgets.listedItems.length ≤ afterWidgets.itemById.keys.length :=
  have hr : Reachable afterWidgets := Reachable.empty.addAll _
  ⟨hr, by decide, by decide, (listing_bounded afterWidgets hr).1⟩

/-- C18: insert is undone by remove on fresh keys. When `item.id` is not a key of `itemById` and
`item.description` is not a key of `itemByDescription`, `addItem(item)` then `removeItem(item.id)`
both return normally and leave `itemById` and `itemByDescription` as they were before the two
calls. -/
theorem addItem_removeItem_undo (m : StorageManager) (item : StoredItem)
    (hid : item.id ∉ m.itemById.keys) (hdesc : item.description ∉ m.itemByDescription.keys) :
    (m.addItem item).result = .ok () ∧
      ((m.addItem item).manager.removeItem item.id).result = .ok () ∧
      ((m.addItem item).manager.removeItem item.id).manager.itemById = m.itemById ∧
      ((m.addItem item).manager.removeItem item.id).manager.itemByDescription =
        m.itemByDescription ∧
      ((m.addItem item).manager.removeItem item.id).manager = m := by
  have hin : (item.id, item) ∈ (m.addItem item).manager.itemById.entries := by
    rw [addItem_of_absent hid]
    exact (Map.mem_assign_entries _ _ _ _ _).mpr (Or.inl ⟨rfl, rfl⟩)
  rw [removeItem_of_entry hin, addItem_of_absent hid]
  simp [Map.erase_assign_of_not_mem _ hid, Map.erase_assign_of_not_mem _ hdesc]

/-- Witness for C18: `item2` added to the manager holding `item1`, then removed. -/
theorem addItem_removeItem_undo_witness :
    "ITEM002" ∉ afterFirstAdd.itemById.keys ∧
      "Fan Motor" ∉ afterFirstAdd.itemByDescription.keys ∧
      ((afterFirstAdd.addItem item2).manager.removeItem "ITEM002").result = .ok () ∧
      ((afterFirstAdd.addItem item2).manager.removeItem "ITEM002").manager = afterFirstAdd :=
  have h := addItem_removeItem_undo afterFirstAdd item2 (by decide) (by decide)
  ⟨by decide, by decide, h.2.1, h.2.2.2.2⟩

/-- C19: inserts on independent keys commute. For two items `a` and `b` with distinct ids, both
absent from `itemById`, and distinct descriptions, all four `addItem` calls return normally and
`addItem(a)` then `addItem(b)` gives the same `itemById` and the same `itemByDescription`, hence
the same `findById` results and the same listing, as `addItem(b)` then `addItem(a)`. -/
theorem addItem_commute (m : StorageManager) (a b : StoredItem) (hid : a.id ≠ b.id)
    (ha : a.id ∉ m.itemById.keys) (hb : b.id ∉ m.itemById.keys)
    (hdesc : a.description ≠ b.description) :
    addAllResults m [a, b] = [.ok (), .ok ()] ∧
      addAllResults m [b, a] = [.ok (), .ok ()] ∧
      (addAll m [a, b]).itemById = (addAll m [b, a]).itemById ∧
      (addAll m [a, b]).itemByDescription = (addAll m [b, a]).itemByDescription ∧
      (∀ k, ((addAll m [a, b]).findById k).result = ((addAll m [b, a]).findById k).result) ∧
      (addAll m [a, b]).listItemsByDescription.out =
        (addAll m [b, a]).listItemsByDescription.out := by
  have hb' : b.id ∉ (m.addItem a).manager.itemById.keys := by
    rw [← Map.find_eq_none_iff, addItem_itemById_find m a b.id (Ne.symm hid)]
    exact (Map.find_eq_none_iff _ _).mpr hb
  have ha' : a.id ∉ (m.addItem b).manager.itemById.keys := by
    rw [← Map.find_eq_none_iff, addItem_itemById_find m b a.id hid]
    exact (Map.find_eq_none_iff _ _).mpr ha
  have hab : addAll m [a, b] =
      { itemById := (m.itemById.assign a.id a).assign b.id b,
        itemByDescription := (m.itemByDescription.assign a.description a).assign b.description b }
      ∧ addAllResults m [a, b] = [.ok (), .ok ()] := by
    simp only [addAll, addAllResults]
    rw [addItem_of_absent hb']
    rw [addItem_of_absent ha]
    exact ⟨rfl, rfl⟩
  have hba : addAll m [b, a] =
      { itemById := (m.itemById.assign b.id b).assign a.id a,
        itemByDescription := (m.itemByDescription.assign b.description b).assign a.description a }
      ∧ addAllResults m [b, a] = [.ok (), .ok ()] := by
    simp only [addAll, addAllResults]
    rw [addItem_of_absent ha']
    rw [addItem_of_absent hb]
    exact ⟨rfl, rfl⟩
  have heq : addAll m [a, b] = addAll m [b, a] := by
    rw [hab.1, hba.1, Map.assign_comm _ hid, Map.assign_comm _ hdesc]
  refine ⟨hab.2, hba.2, ?_, ?_, ?_, ?_⟩
  · rw [heq]
  · rw [heq]
  · intro k; rw [heq]
  · rw [heq]

/-- Witness for C19: the two items of `main`, inserted in either order. -/
theorem addItem_commute_witness :
    addAll StorageManager.empty [item1, item2] = addAll StorageManager.empty [item2, item1] ∧
      (addAll StorageManager.empty [item2, item1]).itemByDescription.entries =
        [("Fan Motor", item2), ("LED Light", item1)] :=
  have h := addItem_commute StorageManager.empty item1 item2 (by decide) (by decide) (by decide)
    (by decide)
  ⟨by decide, h.2.2.2.1 ▸ (by decide)⟩

/-- C11: description collision, last write wins. For two items `a` and `b` with distinct ids,
both absent from `itemById`, and the same description, `addItem(a)` then `addItem(b)` both return
normally; afterwards the entry of `itemByDescription` under that description holds `b` and not
`a`, the listing prints the line of `b`, in a reachable state `a` is not listed at all, and
`findById(a.id)` still returns `a` while `findById(b.id)` returns `b`. -/
theorem description_collision (m : StorageManager) (a b : StoredItem) (hid : a.id ≠ b.id)
    (ha : a.id ∉ m.itemById.keys) (hb : b.id ∉ m.itemById.keys)
    (hdesc : a.description = b.description) :
    addAllResults m [a, b] = [.ok (), .ok ()] ∧
      (a.description, b) ∈ (addAll m [a, b]).itemByDescription.entries ∧
      (a.description, a) ∉ (addAll m [a, b]).itemByDescription.entries ∧
      ("- " ++ b.description ++ ": " ++ b.location) ∈
        (addAll m [a, b]).listItemsByDescription.out ∧
      (Reachable m → a ∉ (addAll m [a, b]).listedItems) ∧
      ((addAll m [a, b]).findById a.id).result = .ok a ∧
      ((addAll m [a, b]).findById b.id).result = .ok b := by
  obtain ⟨hst, hres⟩ := addAll_pair m a b hid ha hb
  have hne : a ≠ b := fun e => hid (by rw [e])
  have hfd : (addAll m [a, b]).itemByDescription.find a.description = some b := by
    rw [hst]
    simp [Map.find_assign, hdesc]
  have hin : (a.description, b) ∈ (addAll m [a, b]).itemByDescription.entries :=
    (Map.find_eq_some_iff _ _ _).mp hfd
  have hfa : (addAll m [a, b]).itemById.find a.id = some a := by
    rw [hst]
    simp [Map.find_assign, hid]
  have hfb : (addAll m [a, b]).itemById.find b.id = some b := by
    rw [hst]
    simp [Map.find_assign]
  refine ⟨hres, hin, ?_, ?_, ?_, findById_result_of_find hfa, findById_result_of_find hfb⟩
  · intro h
    rw [← Map.find_eq_some_iff, hfd, Option.some.injEq] at h
    exact hne h.symm
  · rw [listing_out_eq]
    refine List.mem_cons_of_mem _ (List.mem_map.mpr ⟨b, ?_, rfl⟩)
    exact (Map.mem_values_iff _ _).mpr ⟨a.description, hfd⟩
  · intro hr h
    obtain ⟨d, hd⟩ := (Map.mem_values_iff _ _).mp h
    have hco := (hr.addAll [a, b]).coherent
    have h1 := (hco.2 d a hd).1
    rw [← h1, hfd, Option.some.injEq] at hd
    exact hne hd.symm

/-- Witness for C11, the scenario of the spec: `widgetA` = {X, Widget}, then `widgetB` =
{Y, Widget}, on a new manager. -/
theorem description_collision_witness :
    afterWidgets.listedItems = [widgetB] ∧
      afterWidgets.listItemsByDescription.out =
        ["Items in Description Order:", "- Widget: Bin 2"] ∧
      (afterWidgets.findById "X").result = .ok widgetA ∧
      (afterWidgets.findById "Y").result = .ok widgetB :=
  have h := description_collision StorageManager.empty widgetA widgetB (by decide) (by decide)
    (by decide) (by decide)
  ⟨by decide, by decide, h.2.2.2.2.2.1, h.2.2.2.2.2.2⟩

/-- C15: `removeItem` deletes by description string unconditionally. For every manager and every
id under which `itemById` holds an item `x`, `removeItem(id)` returns normally, `itemById`
afterwards is the old one without the key `id`, and `itemByDescription` afterwards is the old one
without the key `x.description`, whatever item that key held. Consequently, in the reachable
state after `addItem(widgetA)` and `addItem(widgetB)` (different ids, same description),
`removeItem` of the id of `widgetA` erases `widgetB` from the listing while `findById` of the id
of `widgetB` still returns `widgetB`. -/
theorem removeItem_erases_by_description :
    (∀ (m : StorageManager) (id : String) (x : StoredItem), (id, x) ∈ m.itemById.entries →
        (m.removeItem id).result = .ok () ∧
          (∀ k y, (k, y) ∈ (m.removeItem id).manager.itemById.entries ↔
            k ≠ id ∧ (k, y) ∈ m.itemById.entries) ∧
          (∀ d y, (d, y) ∈ (m.removeItem id).manager.itemByDescription.entries ↔
            d ≠ x.description ∧ (d, y) ∈ m.itemByDescription.entries)) ∧
      (Reachable afterWidgets ∧
        widgetA.id ≠ widgetB.id ∧ widgetA.description = widgetB.description ∧
        (widgetA.id, widgetA) ∈ afterWidgets.itemById.entries ∧
        widgetB ∈ afterWidgets.listedItems ∧
        (afterWidgets.removeItem widgetA.id).result = .ok () ∧
        widgetB ∉ (afterWidgets.removeItem widgetA.id).manager.listedItems ∧
        ((afterWidgets.removeItem widgetA.id).manager.findById widgetB.id).result =
          .ok widgetB) := by
  refine ⟨?_, Reachable.empty.addAll _, by decide, by decide, by decide, by decide, by decide,
    by decide, by decide⟩
  intro m id x hx
  rw [removeItem_of_entry hx]
  exact ⟨rfl, fun k y => Map.mem_erase_entries _ _ _ _, fun d y => Map.mem_erase_entries _ _ _ _⟩

/-- Witness for C15: after `removeItem("X")` on the manager holding `widgetA` and `widgetB`,
`itemByDescription` has no entry under "Widget". -/
theorem removeItem_erases_by_description_witness :
    ("X", widgetA) ∈ afterWidgets.itemById.entries ∧
      ("Widget", widgetB) ∈ afterWidgets.itemByDescription.entries ∧
      ("Widget", widgetB) ∉ (afterWidgets.removeItem "X").manager.itemByDescription.entries :=
  ⟨by decide, by decide, fun hy =>
    ((((removeItem_erases_by_description.1 afterWidgets "X" widgetA (by decide)).2.2
      "Widget" widgetB).mp hy).1) rfl⟩

end Inventory
